import Mathlib

set_option linter.unusedVariables false

/-!
Verification of the kube-lease lock library (src/lease.rs).

The library implements a distributed mutual-exclusion primitive over a
Kubernetes coordination.k8s.io/v1 Lease record.  Its pure parts
(snapshot building, expiry and owner computation) are embedded directly;
its asynchronous loops (wait_free, the acquire loop, the renewal task)
are embedded as functions over an explicit environment that supplies the
server responses and clock readings at each suspension point.  Machine
integers are modelled as Int with explicit modular reduction where the
Rust code casts.
-/

namespace KubeLease

/-- Model of kube Error as the lease code distinguishes it: an API error
carrying an HTTP status code, or any other transport-level failure. -/
inductive KubeError where
  | Api (code : Nat)
  | Transport
deriving DecidableEq, Repr

/-- The crate error enum from src/lease.rs (lines 12-28). -/
inductive Error where
  | AcquireTimeout
  | IntOverflow
  | Format (key : String)
  | Serde
  | Kube (e : KubeError)
deriving DecidableEq, Repr

/-- The fields of the remote LeaseSpec the code reads.  Instants are
integers (seconds on the UTC timeline); lease_duration_seconds models the
i32 field of k8s_openapi. -/
structure LeaseSpec where
  holder_identity : Option String
  renew_time : Option Int
  lease_duration_seconds : Option Int
deriving DecidableEq, Repr

/-- The object metadata fields the code reads. -/
structure ObjectMeta where
  name : Option String
  resource_version : Option String
deriving DecidableEq, Repr

/-- A fetched Lease record. -/
structure LeaseObject where
  metadata : ObjectMeta
  spec : Option LeaseSpec
deriving DecidableEq, Repr

/-- LeaseState (lines 370-376): the local snapshot of the remote record.
renew_time is an instant in seconds, lease_duration a signed number of
seconds (chrono Duration). -/
structure LeaseState where
  lease_name : String
  holder : Option String
  renew_time : Int
  lease_duration : Int
  resource_version : String
deriving DecidableEq, Repr

/-- Largest i64 value, the bound of the u64-to-i64 try_into conversion. -/
def i64Max : Int := 2 ^ 63 - 1

/-- The Rust cast x as u64 applied to an i32 value: two's-complement
reinterpretation after sign extension, that is x mod 2^64. -/
def i32AsU64 (x : Int) : Int := x % 2 ^ 64

/-- Models chrono MIN_DATETIME, the earliest representable UTC instant,
as seconds on the timeline. -/
def chronoMinDateTime : Int := -8334632851200

/-- LeaseState::expired (lines 411-413) at client-clock instant now:
renew_time + lease_duration is at or before now. -/
def LeaseState.expired (s : LeaseState) (now : Int) : Bool :=
  decide (s.renew_time + s.lease_duration ≤ now)

/-- LeaseState::owner (lines 415-421) at client-clock instant now. -/
def LeaseState.owner (s : LeaseState) (now : Int) : Option String :=
  if s.expired now then none else s.holder

/-- TryFrom LeaseObject for LeaseState (lines 378-408).  The Rust struct
expression evaluates its fields in source order, so the missing-name
error is raised first, then the duration conversion error, and only then
the missing-resourceVersion error.  The duration conversion widens the
i32 (defaulted to 0) to u64 with an as-cast and then performs a checked
conversion to i64 seconds. -/
def LeaseState.tryFrom (lo : LeaseObject) : Except Error LeaseState :=
  match lo.metadata.name with
  | none => .error (.Format "lease name")
  | some nm =>
    if i32AsU64 ((lo.spec.bind (fun x => x.lease_duration_seconds)).getD 0) ≤ i64Max then
      match lo.metadata.resource_version with
      | none => .error (.Format "resourceVersion")
      | some rv =>
        .ok { lease_name := nm,
              holder := lo.spec.bind (fun x => x.holder_identity),
              renew_time := (lo.spec.bind (fun x => x.renew_time)).getD chronoMinDateTime,
              lease_duration := i32AsU64 ((lo.spec.bind (fun x => x.lease_duration_seconds)).getD 0),
              resource_version := rv }
    else .error .IntOverflow

/-- get_state (lines 276-281): fetch the record and build the snapshot;
a kube error propagates, otherwise the snapshot builder decides. -/
def get_state (resp : Except KubeError LeaseObject) : Except Error LeaseState :=
  match resp with
  | .error e => .error (.Kube e)
  | .ok lo => LeaseState.tryFrom lo

/-- HTTP status code CONFLICT. -/
def httpConflict : Nat := 409

/-- The resourceVersion the try_overwrite patch carries (line 329): the
version of the snapshot obtained from the preceding wait_free read. -/
def overwriteCarriedRv (ls : LeaseState) : String := ls.resource_version

/-- The resourceVersion the renew_lease patch carries (line 258): the
version of the snapshot read by get_state in the same renewal cycle. -/
def renewCarriedRv (ls : LeaseState) : String := ls.resource_version

/-- The resourceVersion the release_lock patch carries (line 93): the
version stored in the guard's snapshot at acquisition time. -/
def releaseCarriedRv (ls : LeaseState) : String := ls.resource_version

/-- try_overwrite (lines 318-364) given the server response to the apply
patch: on success the snapshot is built from the reply; an API error with
status 409 is a conflict and returns the original snapshot unchanged;
every other error propagates. -/
def try_overwrite (holder_id : String) (ls : LeaseState)
    (resp : Except KubeError LeaseObject) : Except Error LeaseState :=
  match resp with
  | .ok lo => LeaseState.tryFrom lo
  | .error (.Api code) =>
    if code = httpConflict then .ok ls else .error (.Kube (.Api code))
  | .error .Transport => .error (.Kube .Transport)

/-- Result of wait_free, recording how many back-off sleeps were done.
panicked models the final panic on an exhausted back-off schedule. -/
inductive WFRes where
  | ok (s : LeaseState) (sleeps : Nat)
  | err (e : Error) (sleeps : Nat)
  | panicked (sleeps : Nat)
deriving DecidableEq, Repr

/-- Environment for one wait_free call: the server response to the k-th
get (k = 0 is the initial read), the client UTC clock when owner is
evaluated after the k-th read, and the Instant clock at the j-th deadline
check. -/
structure WaitEnv where
  read : Nat → Except KubeError LeaseObject
  readClock : Nat → Int
  checkClock : Nat → Int

/-- The deadline test at the top of the back-off loop (lines 294-298):
fires when a deadline is set and now plus the next interval reaches it. -/
def deadlineHit (deadline : Option Int) (now : Int) (b : Int) : Bool :=
  match deadline with
  | some d => decide (now + b ≥ d)
  | none => false

/-- The for loop of wait_free (lines 293-315) over the remaining back-off
intervals: k is the index of the next get, j the number of sleeps so far
(and the index of the next deadline check).  The deadline is tested
before the sleep; then the lease is re-read and an unowned lease is
returned; an exhausted schedule panics. -/
def wfGo (env : WaitEnv) (deadline : Option Int) :
    List Int → Nat → Nat → WFRes
  | [], _, j => .panicked j
  | b :: rest, k, j =>
    if deadlineHit deadline (env.checkClock j) b then .err .AcquireTimeout j
    else
      match get_state (env.read k) with
      | .error e => .err e (j + 1)
      | .ok s =>
        if (s.owner (env.readClock k)).isNone then .ok s (j + 1)
        else wfGo env deadline rest (k + 1) (j + 1)

/-- wait_free (lines 283-316): an initial read returns immediately when
the lease has no owner, otherwise the back-off loop runs. -/
def wait_free (env : WaitEnv) (deadline : Option Int) (expo : List Int) : WFRes :=
  match get_state (env.read 0) with
  | .error e => .err e 0
  | .ok s =>
    if (s.owner (env.readClock 0)).isNone then .ok s 0
    else wfGo env deadline expo 1 0

/-- Result of the acquire loop: the guard's snapshot, an error, a panic
propagated from wait_free, or still looping when the modelling fuel runs
out. -/
inductive AcqRes where
  | ok (guard : LeaseState)
  | err (e : Error)
  | panicked
  | looping
deriving DecidableEq, Repr

/-- Environment for the acquire loop: per iteration i, the wait_free
environment, the server response to the overwrite patch, and the UTC
clock at the owner check after the overwrite. -/
structure AcqEnv where
  wf : Nat → WaitEnv
  owResp : Nat → Except KubeError LeaseObject
  ownClock : Nat → Int

/-- The loop body of LeaseLockClient::acquire (lines 193-204): wait for
the lease to be free, attempt the overwrite, and return a guard exactly
when the post-write snapshot's owner is our holder_id; otherwise loop. -/
def acquireGo (env : AcqEnv) (expo : List Int) (holder_id : String)
    (deadline : Option Int) : Nat → Nat → AcqRes
  | 0, _ => .looping
  | fuel + 1, i =>
    match wait_free (env.wf i) deadline expo with
    | .err e _ => .err e
    | .panicked _ => .panicked
    | .ok s _ =>
      match try_overwrite holder_id s (env.owResp i) with
      | .error e => .err e
      | .ok s2 =>
        if s2.owner (env.ownClock i) = some holder_id then .ok s2
        else acquireGo env expo holder_id deadline fuel (i + 1)

/-- LeaseLockClient::acquire (lines 178-205). -/
def LeaseLockClient.acquire (env : AcqEnv) (expo : List Int)
    (holder_id : String) (deadline : Option Int) (fuel : Nat) : AcqRes :=
  acquireGo env expo holder_id deadline fuel 0

/-- LeaseLock::acquire (lines 155-163 together with line 191): the
deadline is computed once from the optional relative timeout and the
Instant clock at the start of the call. -/
def LeaseLock.acquire (env : AcqEnv) (expo : List Int) (holder_id : String)
    (acquire_timeout : Option Int) (now0 : Int) (fuel : Nat) : AcqRes :=
  LeaseLockClient.acquire env expo holder_id
    (acquire_timeout.map (fun t => now0 + t)) fuel

/-- Result of try_acquire. -/
inductive TryAcqRes where
  | ok (guard : Option LeaseState)
  | err (e : Error)
  | panicked
  | looping
deriving DecidableEq, Repr

/-- LeaseLock::try_acquire (lines 166-174): acquire with a zero timeout,
mapping a successful guard to some, AcquireTimeout to none, and passing
every other error through. -/
def LeaseLock.try_acquire (env : AcqEnv) (expo : List Int)
    (holder_id : String) (now0 : Int) (fuel : Nat) : TryAcqRes :=
  match LeaseLock.acquire env expo holder_id (some 0) now0 fuel with
  | .ok g => .ok (some g)
  | .err e =>
    match e with
    | .AcquireTimeout => .ok none
    | _ => .err e
  | .panicked => .panicked
  | .looping => .looping

/-- Modelled from the spec sentence: try_acquire is equivalent to
acquire(holder_id, Some(ZERO)) with the outcome AcquireTimeout converted
to None, a guard to Some, and every other error unchanged. -/
def tryAcquireSpec (env : AcqEnv) (expo : List Int) (holder_id : String)
    (now0 : Int) (fuel : Nat) : TryAcqRes :=
  match LeaseLock.acquire env expo holder_id (some 0) now0 fuel with
  | .err .AcquireTimeout => .ok none
  | .ok g => .ok (some g)
  | .err e => .err e
  | .panicked => .panicked
  | .looping => .looping

/-- One observation cycle of the renewal task (lines 212-243): the
server response to the cycle's read, the client UTC clock at the owner
check, and the server response to the renewal patch.  The write response
is consulted only when the write is attempted, and its failure is logged
and ignored. -/
structure RenewCycle where
  readResp : Except KubeError LeaseObject
  clock : Int
  writeResp : Except KubeError LeaseObject

/-- The body of one renewal cycle: true means the task returns (stops).
A read error is logged and the loop continues; when the owner is still
our holder_id the renewal write is attempted and any write error is
logged and the loop continues; when the owner differs the task stops. -/
def renewStep (holder_id : String) (c : RenewCycle) : Bool :=
  match get_state c.readResp with
  | .ok s => !(s.owner c.clock == some holder_id)
  | .error _ => false

/-- The schedule_renewal loop over a finite prefix of cycles: some i
when the task returns at cycle i (observed ownership loss), none when it
is still running after all given cycles; in the latter case the task can
only end through the abort handle tripped by the guard's drop. -/
def runRenewal (holder_id : String) : List RenewCycle → Option Nat
  | [] => none
  | c :: cs =>
    if renewStep holder_id c then some 0
    else (runRenewal holder_id cs).map (fun i => i + 1)

/-- The default cycle used only to make indexing total in statements. -/
def dfltCycle : RenewCycle :=
  { readResp := .error .Transport, clock := 0, writeResp := .error .Transport }

/-- A cycle observes ownership loss when its read succeeds, the snapshot
builds, and the computed owner is not our holder_id. -/
def ownershipLost (holder_id : String) (c : RenewCycle) : Prop :=
  ∃ s, get_state c.readResp = .ok s ∧ s.owner c.clock ≠ some holder_id

/-- A client-visible protocol event: a get whose snapshot carries
resourceVersion rv, or an apply write carrying resourceVersion carried
and whose reply's snapshot carries resourceVersion reply. -/
inductive Event where
  | get (rv : String)
  | write (carried : String) (reply : String)
deriving DecidableEq, Repr

/-- The discipline of the claim: every write carries exactly the
resourceVersion returned by the most recent get that preceded it.  The
accumulator is the version of the last get seen so far. -/
def versionDisciplined : List Event → Option String → Bool
  | [], _ => true
  | .get rv :: rest, _ => versionDisciplined rest (some rv)
  | .write c _ :: rest, last => (some c == last) && versionDisciplined rest last

/-- Every write carries a version previously observed, from an earlier
get reply or from an earlier write reply.  The accumulator is the list
of versions observed so far. -/
def writesObserved : List Event → List String → Bool
  | [], _ => true
  | .get rv :: rest, seen => writesObserved rest (rv :: seen)
  | .write c r :: rest, seen => seen.contains c && writesObserved rest (r :: seen)

/-- The versions observed after processing a list of events. -/
def seenAfter : List Event → List String → List String
  | [], seen => seen
  | .get rv :: rest, seen => seenAfter rest (rv :: seen)
  | .write _ r :: rest, seen => seenAfter rest (r :: seen)

/-- The last-get accumulator after processing a list of events. -/
def lastGetAfter : List Event → Option String → Option String
  | [], last => last
  | .get rv :: rest, _ => lastGetAfter rest (some rv)
  | .write _ _ :: rest, last => lastGetAfter rest last

/-- The events of one renewal cycle, threading the model functions: the
cycle reads a snapshot and the renewal patch carries that snapshot's
version (renew_lease, line 258); the server's reply version is recorded. -/
def renewCycleEvents (p : LeaseObject × LeaseObject) : Option (List Event) :=
  match LeaseState.tryFrom p.1, LeaseState.tryFrom p.2 with
  | .ok r, .ok w =>
    some [Event.get r.resource_version,
          Event.write (renewCarriedRv r) w.resource_version]
  | _, _ => none

/-- The concatenated events of a list of renewal cycles. -/
def renewEventsOf : List (LeaseObject × LeaseObject) → Option (List Event)
  | [] => some []
  | p :: ps =>
    match renewCycleEvents p, renewEventsOf ps with
    | some b, some rest => some (b ++ rest)
    | _, _ => none

/-- The write-relevant events of one successful client lifecycle: the
wait_free read, the acquire overwrite carrying the read snapshot's
version (try_overwrite, line 329) with the guard built from its reply
(acquire, lines 195-199), then the given renewal cycles, and finally the
release write, which carries the resourceVersion stored in the guard at
acquisition time (release_lock, line 93, applied to the guard's
lease_state).  Parameters are the server replies at each point; the
result is none when a snapshot fails to build. -/
def lifecycleEvents (wfReply : LeaseObject) (owReply : LeaseObject)
    (renewReplies : List (LeaseObject × LeaseObject))
    (releaseReplyRv : String) : Option (List Event) :=
  match LeaseState.tryFrom wfReply, LeaseState.tryFrom owReply,
      renewEventsOf renewReplies with
  | .ok s0, .ok g, some renewEvts =>
    some ([Event.get s0.resource_version,
           Event.write (overwriteCarriedRv s0) g.resource_version]
          ++ renewEvts
          ++ [Event.write (releaseCarriedRv g) releaseReplyRv])
  | _, _, _ => none

/-! ## Helper lemmas -/

/-- Marker for the AcquireTimeout error. -/
def Error.isTO : Error → Bool
  | .AcquireTimeout => true
  | _ => false

/-- Marker for an AcquireTimeout result of wait_free. -/
def WFRes.isTO : WFRes → Bool
  | .err e _ => e.isTO
  | _ => false

/-- Marker for an AcquireTimeout result of the acquire loop. -/
def AcqRes.isTO : AcqRes → Bool
  | .err e => e.isTO
  | _ => false

/-- A sample well-formed lease record used to instantiate theorems. -/
def sObj : LeaseObject :=
  { metadata := { name := some "demo", resource_version := some "7" },
    spec := some { holder_identity := some "h", renew_time := some 0,
                   lease_duration_seconds := some 10 } }

/-- The snapshot built from sObj. -/
def sState : LeaseState :=
  { lease_name := "demo", holder := some "h", renew_time := 0,
    lease_duration := 10, resource_version := "7" }

theorem tryFrom_sObj : LeaseState.tryFrom sObj = .ok sState := by rfl

theorem tryFrom_err_not_TO (lo : LeaseObject) (e : Error)
    (h : LeaseState.tryFrom lo = .error e) : e.isTO = false := by
  unfold LeaseState.tryFrom at h
  split at h
  · cases h; rfl
  · split at h
    · split at h
      · cases h; rfl
      · cases h
    · cases h; rfl

theorem get_state_err_not_TO (r : Except KubeError LeaseObject) (e : Error)
    (h : get_state r = .error e) : e.isTO = false := by
  cases r with
  | error k => cases h; rfl
  | ok lo => exact tryFrom_err_not_TO lo e h

theorem try_overwrite_err_not_TO (holder_id : String) (ls : LeaseState)
    (r : Except KubeError LeaseObject) (e : Error)
    (h : try_overwrite holder_id ls r = .error e) : e.isTO = false := by
  cases r with
  | ok lo => exact tryFrom_err_not_TO lo e h
  | error k =>
    cases k with
    | Api code =>
      have h2 : (if code = httpConflict then Except.ok ls
          else Except.error (Error.Kube (KubeError.Api code)))
          = Except.error e := h
      split at h2
      · cases h2
      · cases h2; rfl
    | Transport => cases h; rfl

theorem wfGo_none_not_TO (env : WaitEnv) (l : List Int) :
    ∀ k j, (wfGo env none l k j).isTO = false := by
  induction l with
  | nil => intro k j; rfl
  | cons b rest ih =>
    intro k j
    unfold wfGo
    split
    · next hcond => simp [deadlineHit] at hcond
    · split
      · next e hg =>
        simpa [WFRes.isTO] using get_state_err_not_TO (env.read k) e hg
      · next s hg =>
        split
        · rfl
        · exact ih (k + 1) (j + 1)

theorem wait_free_none_not_TO (env : WaitEnv) (expo : List Int) :
    (wait_free env none expo).isTO = false := by
  unfold wait_free
  split
  · next e hg =>
    simpa [WFRes.isTO] using get_state_err_not_TO (env.read 0) e hg
  · next s hg =>
    split
    · rfl
    · exact wfGo_none_not_TO env expo 1 0

theorem acquireGo_none_not_TO (env : AcqEnv) (expo : List Int)
    (holder_id : String) : ∀ fuel i,
    (acquireGo env expo holder_id none fuel i).isTO = false := by
  intro fuel
  induction fuel with
  | zero => intro i; rfl
  | succ n ih =>
    intro i
    unfold acquireGo
    split
    · next e m hw =>
      have hnot := wait_free_none_not_TO (env.wf i) expo
      rw [hw] at hnot
      simpa [WFRes.isTO, AcqRes.isTO] using hnot
    · rfl
    · next s m hw =>
      split
      · next e2 ho =>
        simpa [AcqRes.isTO] using
          try_overwrite_err_not_TO holder_id s (env.owResp i) e2 ho
      · next s2 ho =>
        split
        · rfl
        · exact ih (i + 1)

/-! ## Claim theorems -/

/-- C6: for every snapshot and client-clock instant, expired holds iff
now is at or past renew_time + lease_duration, and owner equals the
holder when the snapshot is unexpired, and is none when it is expired;
an absent holder also gives no owner. -/
theorem expired_owner_characterization (s : LeaseState) (now : Int) :
    (s.expired now = true ↔ now ≥ s.renew_time + s.lease_duration)
    ∧ (s.expired now = false → s.owner now = s.holder)
    ∧ (s.expired now = true → s.owner now = none)
    ∧ (s.holder = none → s.owner now = none) := by
  refine ⟨by simp [LeaseState.expired, ge_iff_le], ?_, ?_, ?_⟩
  · intro h; simp [LeaseState.owner, h]
  · intro h; simp [LeaseState.owner, h]
  · intro h
    by_cases hE : s.expired now <;> simp [LeaseState.owner, hE, h]

/-- Witness for C6 at a concrete unexpired snapshot. -/
theorem expired_owner_characterization_witness :
    sState.owner 3 = some "h" :=
  (expired_owner_characterization sState 3).2.1 (by decide)

/-- C5: try_overwrite returns the original snapshot unchanged on a
409 Conflict response, the snapshot built from the server's reply on a
successful write, and propagates every other API or transport error. -/
theorem try_overwrite_conflict_handling (holder_id : String) (ls : LeaseState)
    (lo : LeaseObject) (code : Nat) :
    (try_overwrite holder_id ls (.error (.Api httpConflict)) = .ok ls)
    ∧ (try_overwrite holder_id ls (.ok lo) = LeaseState.tryFrom lo)
    ∧ (code ≠ httpConflict →
        try_overwrite holder_id ls (.error (.Api code))
          = .error (.Kube (.Api code)))
    ∧ (try_overwrite holder_id ls (.error .Transport)
        = .error (.Kube .Transport)) := by
  refine ⟨rfl, rfl, ?_, rfl⟩
  intro h
  simp [try_overwrite, h]

/-- Witness for C5 at a concrete snapshot, a 500 response and a 409
response. -/
theorem try_overwrite_conflict_handling_witness :
    try_overwrite "h" sState (.error (.Api 500)) = .error (.Kube (.Api 500))
    ∧ try_overwrite "h" sState (.error (.Api httpConflict)) = .ok sState :=
  ⟨(try_overwrite_conflict_handling "h" sState sObj 500).2.2.1 (by decide),
   (try_overwrite_conflict_handling "h" sState sObj 500).1⟩

/-- C3: try_acquire equals acquire with a zero timeout under the mapping
that sends a guard to some, AcquireTimeout to none and leaves every
other outcome unchanged (the spec-side definition tryAcquireSpec). -/
theorem try_acquire_refines_acquire_zero (env : AcqEnv) (expo : List Int)
    (holder_id : String) (now0 : Int) (fuel : Nat) :
    LeaseLock.try_acquire env expo holder_id now0 fuel
      = tryAcquireSpec env expo holder_id now0 fuel := by
  unfold LeaseLock.try_acquire tryAcquireSpec
  rcases LeaseLock.acquire env expo holder_id (some 0) now0 fuel with g | e | _ | _
  · rfl
  · cases e <;> rfl
  · rfl
  · rfl

/-- C10: acquire called without an acquire_timeout never returns the
AcquireTimeout error, since that error is only built inside the deadline
branch of wait_free and no deadline exists. -/
theorem acquire_no_timeout_without_deadline (env : AcqEnv) (expo : List Int)
    (holder_id : String) (now0 : Int) (fuel : Nat) :
    (LeaseLock.acquire env expo holder_id none now0 fuel
      = AcqRes.err Error.AcquireTimeout) = False := by
  apply eq_false
  intro h
  have h2 : acquireGo env expo holder_id none fuel 0
      = AcqRes.err Error.AcquireTimeout := h
  have h3 := acquireGo_none_not_TO env expo holder_id fuel 0
  rw [h2] at h3
  exact absurd h3 (by simp [AcqRes.isTO, Error.isTO])

/-- C4: with a deadline set, the deadline is tested at the top of each
back-off iteration, and when the Instant clock plus the next interval
reaches the deadline, wfGo returns AcquireTimeout with no further sleep;
in particular, with deadline equal to the call instant (the try_acquire
case), an owned lease on the first read, a monotone clock and a
non-negative first interval, wait_free fails before any sleep. -/
theorem wait_free_deadline_check (env : WaitEnv) (d : Int) (b : Int)
    (rest : List Int) :
    (∀ k j, env.checkClock j + b ≥ d →
        wfGo env (some d) (b :: rest) k j = .err .AcquireTimeout j)
    ∧ (∀ lo s, env.read 0 = .ok lo → LeaseState.tryFrom lo = .ok s →
        (s.owner (env.readClock 0)).isSome = true → env.checkClock 0 ≥ d →
        0 ≤ b →
        wait_free env (some d) (b :: rest) = .err .AcquireTimeout 0) := by
  have hgen : ∀ k j, env.checkClock j + b ≥ d →
      wfGo env (some d) (b :: rest) k j = .err .AcquireTimeout j := by
    intro k j h
    unfold wfGo
    rw [if_pos (by simpa [deadlineHit] using h)]
  refine ⟨hgen, ?_⟩
  intro lo s hr hs hown hck hb
  obtain ⟨w, hw⟩ := Option.isSome_iff_exists.mp hown
  unfold wait_free
  rw [show get_state (env.read 0) = Except.ok s from by rw [hr]; exact hs]
  show (if (s.owner (env.readClock 0)).isNone = true then WFRes.ok s 0
      else wfGo env (some d) (b :: rest) 1 0) = WFRes.err Error.AcquireTimeout 0
  rw [hw]
  rw [if_neg (by simp)]
  exact hgen 1 0 (by omega)

/-- A wait environment whose reads always return the sample owned
record, with the UTC clock at 0 and the Instant clock at 5. -/
def envW : WaitEnv :=
  { read := fun _ => .ok sObj, readClock := fun _ => 0, checkClock := fun _ => 5 }

/-- Witness for C4: with deadline 5, a clock already at 5 and a first
interval of 1, wait_free on an owned lease times out with zero sleeps. -/
theorem wait_free_deadline_check_witness :
    wait_free envW (some 5) [1] = .err .AcquireTimeout 0 :=
  (wait_free_deadline_check envW 5 1 []).2 sObj sState rfl tryFrom_sObj rfl
    (by decide) (by decide)

/-- The back-off loop over a finite schedule whose reads all show an
owned lease and whose deadline checks never fire consumes the whole
schedule and ends in the panic branch. -/
theorem wfGo_exhaustion (env : WaitEnv) (deadline : Option Int) :
    ∀ (l : List Int) (k j : Nat),
    (∀ m, m < l.length → ∃ s, get_state (env.read (k + m)) = .ok s
        ∧ (s.owner (env.readClock (k + m))).isSome = true) →
    (∀ m, m < l.length →
        deadlineHit deadline (env.checkClock (j + m)) (l.getD m 0) = false) →
    wfGo env deadline l k j = .panicked (j + l.length) := by
  intro l
  induction l with
  | nil => intro k j _ _; rfl
  | cons b rest ih =>
    intro k j hreads hchecks
    unfold wfGo
    have hc0 := hchecks 0 (by simp)
    simp only [Nat.add_zero, List.getD_cons_zero] at hc0
    rw [hc0]
    rw [if_neg (by simp)]
    obtain ⟨s, hs, hsome⟩ := hreads 0 (by simp)
    simp only [Nat.add_zero] at hs hsome
    rw [hs]
    show (if (s.owner (env.readClock k)).isNone = true then WFRes.ok s (j + 1)
        else wfGo env deadline rest (k + 1) (j + 1))
      = WFRes.panicked (j + (b :: rest).length)
    obtain ⟨w, hw⟩ := Option.isSome_iff_exists.mp hsome
    rw [hw]
    rw [if_neg (by simp)]
    have hrec := ih (k + 1) (j + 1)
      (by
        intro m hm
        have h2 := hreads (m + 1) (by simpa using Nat.succ_lt_succ hm)
        have hk : k + (m + 1) = k + 1 + m := by omega
        rw [hk] at h2
        exact h2)
      (by
        intro m hm
        have h2 := hchecks (m + 1) (by simpa using Nat.succ_lt_succ hm)
        have hj : j + (m + 1) = j + 1 + m := by omega
        rw [hj] at h2
        simpa [List.getD_cons_succ] using h2)
    rw [hrec]
    have : j + 1 + rest.length = j + (b :: rest).length := by simp; omega
    rw [this]

/-- C9: when the configured back-off schedule is finite and every read
during wait_free observes an owned lease while no deadline check fires,
wait_free consumes the whole schedule and crashes in the final panic
branch instead of returning a value. -/
theorem wait_free_exhaustion_panics (env : WaitEnv) (deadline : Option Int)
    (expo : List Int)
    (hreads : ∀ k, k ≤ expo.length → ∃ s, get_state (env.read k) = .ok s
        ∧ (s.owner (env.readClock k)).isSome = true)
    (hchecks : ∀ j, j < expo.length →
        deadlineHit deadline (env.checkClock j) (expo.getD j 0) = false) :
    wait_free env deadline expo = .panicked expo.length := by
  obtain ⟨s0, hs0, hsome0⟩ := hreads 0 (Nat.zero_le _)
  unfold wait_free
  rw [hs0]
  show (if (s0.owner (env.readClock 0)).isNone = true then WFRes.ok s0 0
      else wfGo env deadline expo 1 0) = WFRes.panicked expo.length
  obtain ⟨w, hw⟩ := Option.isSome_iff_exists.mp hsome0
  rw [hw]
  rw [if_neg (by simp)]
  have hrec := wfGo_exhaustion env deadline expo 1 0
    (by
      intro m hm
      have h2 := hreads (m + 1) (by omega)
      have hk : (1 : Nat) + m = m + 1 := by omega
      rw [hk]
      exact h2)
    (by
      intro m hm
      have h2 := hchecks m hm
      simpa using h2)
  simpa using hrec

/-- A wait environment whose reads always return the sample owned
record, with all clocks at 0. -/
def envP : WaitEnv :=
  { read := fun _ => .ok sObj, readClock := fun _ => 0, checkClock := fun _ => 0 }

/-- Witness for C9: a two-interval schedule, no deadline and a
permanently owned lease end in the panic branch after two sleeps. -/
theorem wait_free_exhaustion_panics_witness :
    wait_free envP none [1, 2] = .panicked 2 :=
  wait_free_exhaustion_panics envP none [1, 2]
    (fun k _ => ⟨sState, tryFrom_sObj, rfl⟩) (fun j _ => rfl)

/-- A record with a name, no resourceVersion, and a negative
leaseDurationSeconds. -/
def badObj : LeaseObject :=
  { metadata := { name := some "demo", resource_version := none },
    spec := some { holder_identity := none, renew_time := none,
                   lease_duration_seconds := some (-1) } }

/-- Counterexample for C7: on badObj the resourceVersion is absent, and
a duration of -1 seconds is representable as a signed (chrono) duration,
yet the snapshot builder fails with the integer-overflow error and not
with a missing-field error, because the Rust struct expression converts
the duration (through an unsigned 64-bit cast) before it looks at
metadata.resourceVersion. -/
theorem tryFrom_error_precedence_counterexample :
    badObj.metadata.resource_version = none
    ∧ LeaseState.tryFrom badObj = .error .IntOverflow
    ∧ LeaseState.tryFrom badObj ≠ .error (.Format "resourceVersion")
    ∧ LeaseState.tryFrom badObj ≠ .error (.Format "lease name") := by
  have h : LeaseState.tryFrom badObj = .error .IntOverflow := by rfl
  refine ⟨rfl, h, ?_, ?_⟩ <;> rw [h] <;> simp

/-- C7 amended: building a snapshot fails with the missing-field error
for the name exactly when metadata.name is absent; otherwise the
duration conversion runs next and fails with the integer-overflow error
exactly when the unsigned 64-bit reinterpretation of
spec.leaseDurationSeconds does not fit a signed 64-bit count of seconds,
which for an i32 field means exactly the negative values; only then is
an absent metadata.resourceVersion reported as a missing-field error;
otherwise the build succeeds, tolerating missing spec, holder_identity,
renew_time and lease_duration_seconds with the stated defaults. -/
theorem tryFrom_characterization_amended (lo : LeaseObject) :
    (lo.metadata.name = none →
        LeaseState.tryFrom lo = .error (.Format "lease name"))
    ∧ (∀ nm, lo.metadata.name = some nm →
        i64Max < i32AsU64 ((lo.spec.bind (fun x => x.lease_duration_seconds)).getD 0) →
        LeaseState.tryFrom lo = .error .IntOverflow)
    ∧ (∀ nm, lo.metadata.name = some nm →
        i32AsU64 ((lo.spec.bind (fun x => x.lease_duration_seconds)).getD 0) ≤ i64Max →
        lo.metadata.resource_version = none →
        LeaseState.tryFrom lo = .error (.Format "resourceVersion"))
    ∧ (∀ nm rv, lo.metadata.name = some nm →
        i32AsU64 ((lo.spec.bind (fun x => x.lease_duration_seconds)).getD 0) ≤ i64Max →
        lo.metadata.resource_version = some rv →
        LeaseState.tryFrom lo = .ok
          { lease_name := nm,
            holder := lo.spec.bind (fun x => x.holder_identity),
            renew_time := (lo.spec.bind (fun x => x.renew_time)).getD chronoMinDateTime,
            lease_duration := i32AsU64 ((lo.spec.bind (fun x => x.lease_duration_seconds)).getD 0),
            resource_version := rv })
    ∧ (∀ x : Int, -(2 ^ 31) ≤ x → x < 2 ^ 31 →
        (i64Max < i32AsU64 x ↔ x < 0)) := by
  refine ⟨?_, ?_, ?_, ?_, ?_⟩
  · intro h; simp [LeaseState.tryFrom, h]
  · intro nm hn hd
    simp only [LeaseState.tryFrom, hn]
    rw [if_neg (not_le.mpr hd)]
  · intro nm hn hd hrv
    simp only [LeaseState.tryFrom, hn]
    rw [if_pos hd, hrv]
  · intro nm rv hn hd hrv
    simp only [LeaseState.tryFrom, hn]
    rw [if_pos hd, hrv]
  · intro x h1 h2
    simp only [i32AsU64, i64Max]
    have h64 : (2 : Int) ^ 64 = 18446744073709551616 := by norm_num
    have h63 : (2 : Int) ^ 63 = 9223372036854775808 := by norm_num
    have h31 : (2 : Int) ^ 31 = 2147483648 := by norm_num
    rw [h64, h63]
    rw [h31] at h1 h2
    omega

/-- Witness for C7 amended, at the record badObj: the name is present
and the duration overflows, so the builder reports IntOverflow. -/
theorem tryFrom_characterization_amended_witness :
    LeaseState.tryFrom badObj = .error .IntOverflow :=
  (tryFrom_characterization_amended badObj).2.1 "demo" rfl (by decide)

theorem renewStep_eq_lost (holder_id : String) (c : RenewCycle) :
    renewStep holder_id c = true ↔ ownershipLost holder_id c := by
  unfold renewStep ownershipLost
  cases hg : get_state c.readResp with
  | error e => simp
  | ok s => simp

theorem renewal_nil (holder_id : String) : runRenewal holder_id [] = none := rfl

/-- C8: the renewal loop, run over any finite list of cycle
observations, returns at index i exactly when cycle i is the first one
whose read succeeds and shows an owner different from our holder_id;
cycles whose read fails pass through to the next cycle, and the result
never depends on the outcome of the renewal writes.  When no cycle
observes ownership loss the loop is still running after the list, and
the real task can then only end through the abort handle tripped by
releasing the guard. -/
theorem renewal_termination (holder_id : String) :
    (∀ cycles i, runRenewal holder_id cycles = some i ↔
        (i < cycles.length ∧ ownershipLost holder_id (cycles.getD i dfltCycle)
         ∧ ∀ j, j < i → ¬ ownershipLost holder_id (cycles.getD j dfltCycle)))
    ∧ (∀ c cs e, get_state c.readResp = .error e →
        runRenewal holder_id (c :: cs)
          = (runRenewal holder_id cs).map (fun i => i + 1))
    ∧ (∀ (cycles : List RenewCycle)
          (f : RenewCycle → Except KubeError LeaseObject),
        runRenewal holder_id
          (cycles.map (fun c => ⟨c.readResp, c.clock, f c⟩))
        = runRenewal holder_id cycles) := by
  refine ⟨?_, ?_, ?_⟩
  · intro cycles
    induction cycles with
    | nil =>
      intro i
      simp [runRenewal]
    | cons c cs ih =>
      intro i
      show (if renewStep holder_id c = true then some 0
          else (runRenewal holder_id cs).map (fun i => i + 1)) = some i ↔ _
      by_cases hstep : renewStep holder_id c = true
      · rw [if_pos hstep]
        have hlost := (renewStep_eq_lost holder_id c).mp hstep
        cases i with
        | zero =>
          simp only [List.getD_cons_zero]
          constructor
          · intro _
            exact ⟨by simp, hlost, fun j hj => absurd hj (Nat.not_lt_zero j)⟩
          · intro _; trivial
        | succ n =>
          constructor
          · intro h; cases h
          · rintro ⟨-, -, hnone⟩
            exact absurd hlost (by simpa using hnone 0 (Nat.succ_pos n))
      · rw [if_neg hstep]
        have hnotlost : ¬ ownershipLost holder_id c := fun hl =>
          hstep ((renewStep_eq_lost holder_id c).mpr hl)
        cases i with
        | zero =>
          simp only [List.getD_cons_zero]
          constructor
          · intro h
            rcases Option.map_eq_some'.mp h with ⟨m, -, hm⟩
            exact absurd hm (by omega)
          · rintro ⟨-, hl, -⟩
            exact absurd hl hnotlost
        | succ n =>
          constructor
          · intro h
            rcases Option.map_eq_some'.mp h with ⟨m, hm, hmn⟩
            have hm2 : runRenewal holder_id cs = some n := by
              have hmn2 : m = n := by omega
              rwa [hmn2] at hm
            rcases (ih n).mp hm2 with ⟨hlen, hl, hnone⟩
            refine ⟨by simpa using Nat.succ_lt_succ hlen, by simpa using hl, ?_⟩
            intro j hj
            cases j with
            | zero => simpa using hnotlost
            | succ m2 =>
              simp only [List.getD_cons_succ]
              exact hnone m2 (by omega)
          · rintro ⟨hlen, hl, hnone⟩
            have hrec : runRenewal holder_id cs = some n := by
              refine (ih n).mpr ⟨by simpa using hlen, by simpa using hl, ?_⟩
              intro j hj
              have := hnone (j + 1) (by omega)
              simpa using this
            rw [hrec]
            rfl
  · intro c cs e hg
    have hstep : renewStep holder_id c = false := by
      unfold renewStep
      rw [hg]
    show (if renewStep holder_id c = true then some 0
        else (runRenewal holder_id cs).map (fun i => i + 1))
      = (runRenewal holder_id cs).map (fun i => i + 1)
    rw [if_neg (by simp [hstep])]
  · intro cycles f
    induction cycles with
    | nil => rfl
    | cons c cs ih =>
      simp only [List.map_cons]
      show (if renewStep holder_id ⟨c.readResp, c.clock, f c⟩ = true then some 0
          else (runRenewal holder_id
              (cs.map (fun c => ⟨c.readResp, c.clock, f c⟩))).map
            (fun i => i + 1))
        = (if renewStep holder_id c = true then some 0
          else (runRenewal holder_id cs).map (fun i => i + 1))
      rw [show renewStep holder_id ⟨c.readResp, c.clock, f c⟩
          = renewStep holder_id c from rfl, ih]

/-- A record held by a different owner, z. -/
def zObj : LeaseObject :=
  { metadata := { name := some "demo", resource_version := some "9" },
    spec := some { holder_identity := some "z", renew_time := some 0,
                   lease_duration_seconds := some 10 } }

/-- The snapshot built from zObj. -/
def zState : LeaseState :=
  { lease_name := "demo", holder := some "z", renew_time := 0,
    lease_duration := 10, resource_version := "9" }

/-- A renewal cycle that reads a lease owned by z while the renewal
write would fail; the write outcome is irrelevant. -/
def lostCycle : RenewCycle :=
  { readResp := .ok zObj, clock := 0, writeResp := .error .Transport }

/-- Witness for C8: as holder h, a single cycle observing owner z stops
the renewal task at that cycle. -/
theorem renewal_termination_witness :
    runRenewal "h" [lostCycle] = some 0 :=
  ((renewal_termination "h").1 [lostCycle] 0).mpr
    ⟨by simp, ⟨zState, rfl, by simp [zState, LeaseState.owner, LeaseState.expired]⟩,
     fun j hj => absurd hj (Nat.not_lt_zero j)⟩

theorem vd_append (xs ys : List Event) (last : Option String) :
    versionDisciplined (xs ++ ys) last
      = (versionDisciplined xs last
         && versionDisciplined ys (lastGetAfter xs last)) := by
  induction xs generalizing last with
  | nil => simp [versionDisciplined, lastGetAfter]
  | cons x xs ih =>
    cases x with
    | get rv => simp [versionDisciplined, lastGetAfter, ih]
    | write c r => simp [versionDisciplined, lastGetAfter, ih, Bool.and_assoc]

theorem wo_append (xs ys : List Event) (seen : List String) :
    writesObserved (xs ++ ys) seen
      = (writesObserved xs seen && writesObserved ys (seenAfter xs seen)) := by
  induction xs generalizing seen with
  | nil => simp [writesObserved, seenAfter]
  | cons x xs ih =>
    cases x with
    | get rv => simp [writesObserved, seenAfter, ih]
    | write c r => simp [writesObserved, seenAfter, ih, Bool.and_assoc]

theorem seenAfter_append (xs ys : List Event) (seen : List String) :
    seenAfter (xs ++ ys) seen = seenAfter ys (seenAfter xs seen) := by
  induction xs generalizing seen with
  | nil => rfl
  | cons x xs ih =>
    cases x with
    | get rv => simp [seenAfter, ih]
    | write c r => simp [seenAfter, ih]

theorem mem_seenAfter (xs : List Event) :
    ∀ seen v, v ∈ seen → v ∈ seenAfter xs seen := by
  induction xs with
  | nil => intro seen v h; exact h
  | cons x xs ih =>
    intro seen v h
    cases x with
    | get rv => exact ih _ v (List.mem_cons_of_mem _ h)
    | write c r => exact ih _ v (List.mem_cons_of_mem _ h)

theorem renewCycleEvents_shape (p : LeaseObject × LeaseObject)
    (b : List Event) (h : renewCycleEvents p = some b) :
    ∃ r w, b = [Event.get r, Event.write r w] := by
  unfold renewCycleEvents at h
  split at h
  · next r w _ _ =>
    cases h
    exact ⟨r.resource_version, w.resource_version, rfl⟩
  · cases h

theorem renewEventsOf_props (pairs : List (LeaseObject × LeaseObject)) :
    ∀ evts, renewEventsOf pairs = some evts →
      (∀ last, versionDisciplined evts last = true)
      ∧ (∀ seen, writesObserved evts seen = true)
      ∧ (∀ seen v, v ∈ seen → v ∈ seenAfter evts seen) := by
  induction pairs with
  | nil =>
    intro evts h
    cases h
    exact ⟨fun last => rfl, fun seen => rfl, fun seen v hv => hv⟩
  | cons p ps ih =>
    intro evts h
    unfold renewEventsOf at h
    split at h
    · next b rest hb hr =>
      cases h
      obtain ⟨r, w, hbshape⟩ := renewCycleEvents_shape p b hb
      subst hbshape
      obtain ⟨ihd, iho, ihm⟩ := ih rest hr
      refine ⟨?_, ?_, ?_⟩
      · intro last
        rw [vd_append]
        have h1 : versionDisciplined [Event.get r, Event.write r w] last
            = true := by simp [versionDisciplined]
        rw [h1, ihd]
        rfl
      · intro seen
        rw [wo_append]
        have h1 : writesObserved [Event.get r, Event.write r w] seen
            = true := by
          show (List.elem r (r :: seen)
              && writesObserved [] (w :: r :: seen)) = true
          rw [List.elem_eq_true_of_mem (List.mem_cons_self r seen)]
          rfl
        rw [h1, iho]
        rfl
      · intro seen v hv
        show v ∈ seenAfter ([Event.get r, Event.write r w] ++ rest) seen
        rw [seenAfter_append]
        exact ihm _ v (List.mem_cons_of_mem _ (List.mem_cons_of_mem _ hv))
    · cases h

/-- A lease record whose only relevant content is its resourceVersion. -/
def mkObj (r : String) : LeaseObject :=
  { metadata := { name := some "L", resource_version := some r },
    spec := none }

/-- Counterexample for C2: in the lifecycle that acquires at version 0
(the server reply carrying version 1, which the guard stores), runs two
renewal cycles (reading versions 1 and 2 and writing versions 2 and 3),
and then releases, the release write carries version 1, while the read
that immediately preceded it returned version 2; the trace therefore
violates the claimed discipline that every write carries the version of
the immediately preceding read. -/
theorem release_write_version_counterexample :
    (lifecycleEvents (mkObj "0") (mkObj "1")
        [(mkObj "1", mkObj "2"), (mkObj "2", mkObj "3")] "4").map
      (fun evts => versionDisciplined evts none) = some false := rfl

/-- C2 amended: in a successful client lifecycle the acquire overwrite
and every renewal write carry exactly the resourceVersion returned by
the read that immediately precedes them, but the final release write
carries the resourceVersion stored in the guard at acquisition time
(the version returned by the acquire write), which can be older than
the most recent read once renewal cycles have intervened; every write,
the release included, still carries only a previously observed version. -/
theorem version_discipline_amended (wfReply owReply : LeaseObject)
    (renewReplies : List (LeaseObject × LeaseObject)) (relRv : String)
    (evts : List Event) (g : LeaseState)
    (hg : LeaseState.tryFrom owReply = .ok g)
    (h : lifecycleEvents wfReply owReply renewReplies relRv = some evts) :
    versionDisciplined evts.dropLast none = true
    ∧ evts.getLast? = some (.write (releaseCarriedRv g) relRv)
    ∧ writesObserved evts [] = true := by
  unfold lifecycleEvents at h
  split at h
  · next s0 g2 renewEvts hw hg2 hre =>
    rw [hg] at hg2
    cases hg2
    cases h
    obtain ⟨ihd, iho, ihm⟩ := renewEventsOf_props renewReplies renewEvts hre
    refine ⟨?_, ?_, ?_⟩
    · rw [List.dropLast_concat]
      rw [vd_append]
      have h1 : versionDisciplined
          [Event.get s0.resource_version,
           Event.write (overwriteCarriedRv s0) g.resource_version] none
          = true := by simp [versionDisciplined, overwriteCarriedRv]
      rw [h1, ihd]
      rfl
    · rw [List.getLast?_concat]
    · rw [wo_append, wo_append]
      have h1 : writesObserved
          [Event.get s0.resource_version,
           Event.write (overwriteCarriedRv s0) g.resource_version] []
          = true := by
        show (List.elem (overwriteCarriedRv s0)
              ([s0.resource_version] : List String)
            && writesObserved [] (g.resource_version
              :: [s0.resource_version])) = true
        rw [List.elem_eq_true_of_mem
          (show overwriteCarriedRv s0 ∈ [s0.resource_version] from
            List.mem_singleton.mpr rfl)]
        rfl
      have h2 : writesObserved
          [Event.write (releaseCarriedRv g) relRv]
          (seenAfter
            ([Event.get s0.resource_version,
              Event.write (overwriteCarriedRv s0) g.resource_version]
              ++ renewEvts) []) = true := by
        rw [seenAfter_append]
        have hmem : releaseCarriedRv g ∈ seenAfter renewEvts
            (seenAfter
              [Event.get s0.resource_version,
               Event.write (overwriteCarriedRv s0) g.resource_version] []) := by
          apply ihm
          show releaseCarriedRv g
            ∈ [g.resource_version, s0.resource_version]
          exact List.mem_cons_self _ _
        show (List.elem (releaseCarriedRv g) (seenAfter renewEvts
              (seenAfter
                [Event.get s0.resource_version,
                 Event.write (overwriteCarriedRv s0) g.resource_version] []))
            && writesObserved [] _) = true
        rw [List.elem_eq_true_of_mem hmem]
        rfl
      rw [h1, iho, h2]
      rfl
  · cases h

/-- Witness for C2 amended, at the two-renewal lifecycle of the
counterexample: the guard's version 1 is the last write's carried
version and every write carries a previously observed version. -/
theorem version_discipline_amended_witness :
    writesObserved [Event.get "0", Event.write "0" "1", Event.get "1",
      Event.write "1" "2", Event.get "2", Event.write "2" "3",
      Event.write "1" "4"] [] = true :=
  (version_discipline_amended (mkObj "0") (mkObj "1")
    [(mkObj "1", mkObj "2"), (mkObj "2", mkObj "3")] "4"
    [Event.get "0", Event.write "0" "1", Event.get "1", Event.write "1" "2",
     Event.get "2", Event.write "2" "3", Event.write "1" "4"]
    { lease_name := "L", holder := none, renew_time := chronoMinDateTime,
      lease_duration := 0, resource_version := "1" } rfl rfl).2.2

end KubeLease
